import Mathlib

/-!
Shallow embedding of the core logic of the `dmitrav/normalization` repository.

The repository consists of two scripts:
* `src/exploratory_analysis.py` — peak matching on a mass-to-charge axis
  within a ppm tolerance, TIC normalization, and ComBat batch assignment;
* `src/torch/ae.py` — a small symmetric autoencoder.

Numeric values (Python floats) are modelled as exact rationals `ℚ`; module
level constants that live in the absent `src/constants.py`
(`allowed_ppm_error`, `tic_normalization_scaling_factor`,
`number_of_replicates`, `amino_acids`) are passed as explicit parameters.
Python's negative-index list access is modelled by `pyGet`; a raised
`ValueError` is modelled as the `Except.error` branch, carrying the two ppm
deviations that the Python code prints alongside the exception.
-/

namespace Normalization

/-- Python list access `l[i]`, where a negative index `i` counts from the
end of the list (`l[-1]` is the last element).  Out-of-range access (which
raises `IndexError` in Python and never happens on the executions modelled
here) yields the default `d`. -/
def pyGet {α : Type} (l : List α) (d : α) (i : ℤ) : α :=
  if 0 ≤ i then l.getD i.toNat d else l.getD (l.length - (-i).toNat) d

/-- Relative ppm error `|a - t| / t * 10^6` of an axis value `a` against a
target value `t` (glossary of the spec: parts-per-million relative
difference). -/
def ppm_error (a t : ℚ) : ℚ :=
  |a - t| / t * 10 ^ 6

/-- The `while` loop of `find_closest_ion_mz_index`: starting from
`closest_index`, advance while `mz_axis[closest_index] < ion_mz` and
`closest_index + 1 < len(mz_axis)`. -/
def scanFrom (mz_axis : List ℚ) (ion_mz : ℚ) (closest_index : ℕ) : ℕ :=
  if mz_axis.getD closest_index 0 < ion_mz ∧ closest_index + 1 < mz_axis.length then
    scanFrom mz_axis ion_mz (closest_index + 1)
  else
    closest_index
termination_by mz_axis.length - closest_index
decreasing_by omega

/-- The local variable `previous_peak_ppm` of `find_closest_ion_mz_index`:
the ppm error of `mz_axis[closest_index - 1]` (Python indexing, so the
index `-1` wraps to the last element when the scan stopped at `0`). -/
def previous_peak_ppm (mz_axis : List ℚ) (ion_mz : ℚ) : ℚ :=
  |pyGet mz_axis 0 ((scanFrom mz_axis ion_mz 0 : ℤ) - 1) - ion_mz| / ion_mz * 10 ^ 6

/-- The local variable `next_peak_ppm` of `find_closest_ion_mz_index`: the
ppm error of `mz_axis[closest_index]` where `closest_index` is the final
value of the scan loop. -/
def next_peak_ppm (mz_axis : List ℚ) (ion_mz : ℚ) : ℚ :=
  |pyGet mz_axis 0 (scanFrom mz_axis ion_mz 0 : ℤ) - ion_mz| / ion_mz * 10 ^ 6

/-- `find_closest_ion_mz_index(mz_axis, ion_mz)` from
`src/exploratory_analysis.py`.  The configured tolerance
`allowed_ppm_error` (imported from `src.constants` in the source) is an
explicit parameter.  Returns the chosen axis index (an integer, since the
code can return `closest_index - 1 = -1`), or — when the `ValueError` is
raised — the pair `(previous_peak_ppm, next_peak_ppm)` that the source
prints next to the exception. -/
def find_closest_ion_mz_index (allowed_ppm_error : ℚ) (mz_axis : List ℚ)
    (ion_mz : ℚ) : Except (ℚ × ℚ) ℤ :=
  if previous_peak_ppm mz_axis ion_mz ≤ next_peak_ppm mz_axis ion_mz ∧
      previous_peak_ppm mz_axis ion_mz ≤ allowed_ppm_error then
    .ok ((scanFrom mz_axis ion_mz 0 : ℤ) - 1)
  else if previous_peak_ppm mz_axis ion_mz > next_peak_ppm mz_axis ion_mz ∧
      next_peak_ppm mz_axis ion_mz ≤ allowed_ppm_error then
    .ok (scanFrom mz_axis ion_mz 0 : ℤ)
  else
    .error (previous_peak_ppm mz_axis ion_mz, next_peak_ppm mz_axis ion_mz)

/-- The column selection `numpy.where(numpy.array(colnames) == id)[0]`:
the positions of the columns whose name equals `id`. -/
def j_experiment_indices (colnames : List String) (id : String) : List ℕ :=
  (List.range colnames.length).filter fun k => colnames.getD k "" = id

/-- `numpy.sum(data[:, j_experiment_indices])`: the total intensity (TIC)
of all peaks in the columns of one experiment, summed over every row of
the data matrix. -/
def experiment_tic (data : List (List ℚ)) (colnames : List String) (id : String) : ℚ :=
  (data.map fun row => ((j_experiment_indices colnames id).map fun k => row.getD k 0).sum).sum

/-- `get_tic_normalized_amino_acid_values(data, colnames, aa_intensities)`
from `src/exploratory_analysis.py`.  The constant
`tic_normalization_scaling_factor` is the parameter `scaling_factor`; the
list `experiment_ids` stands for `list(set(colnames))` whose order is not
specified by Python, so it is passed explicitly.  Each replicate value of
analyte `i` in experiment `j` is divided by the TIC of that experiment and
multiplied by the scaling factor. -/
def get_tic_normalized_amino_acid_values (scaling_factor : ℚ)
    (data : List (List ℚ)) (colnames : List String)
    (experiment_ids : List String)
    (aa_intensities : List (List (List ℚ))) : List (List (List ℚ)) :=
  (List.range aa_intensities.length).map fun i =>
    (List.range experiment_ids.length).map fun j =>
      ((aa_intensities.getD i []).getD j []).map fun v =>
        v / experiment_tic data colnames (experiment_ids.getD j "") * scaling_factor

/-- The `batches` vector of `get_combat_normalized_amino_acid_values`:
`flatten([[i, i, i] for i in range(len(colnames) // n)])`, where `n` is the
constant `number_of_replicates` from `src.constants`. -/
def combat_batches (n : ℕ) (colnames : List String) : List ℕ :=
  ((List.range (colnames.length / n)).map fun i => [i, i, i]).flatten

/-- `get_intensities_data_structure(data, colnames, aa_mz_indices)` from
`src/exploratory_analysis.py`: for each matched amino-acid axis index and
each experiment id, the row of intensities of that peak restricted to the
columns of the experiment.  Row access `data[mz_index, ...]` uses Python
indexing (`pyGet`), since the matched index can be `-1`. -/
def get_intensities_data_structure (data : List (List ℚ)) (colnames : List String)
    (experiment_ids : List String) (aa_mz_indices : List ℤ) : List (List (List ℚ)) :=
  aa_mz_indices.map fun mz_index =>
    experiment_ids.map fun id =>
      (j_experiment_indices colnames id).map fun k => (pyGet data [] mz_index).getD k 0

/-- `get_combat_normalized_amino_acid_values(data, colnames, aa_mz_indices)`
from `src/exploratory_analysis.py`.  The external batch-correction
procedure `combat` is an opaque dependency and is passed as a function
argument; `n` is the constant `number_of_replicates`.  The data matrix and
the batch label vector `combat_batches n colnames` are handed to `combat`,
and its output is rearranged by `get_intensities_data_structure`. -/
def get_combat_normalized_amino_acid_values
    (combat : List (List ℚ) → List ℕ → List (List ℚ)) (n : ℕ)
    (data : List (List ℚ)) (colnames : List String)
    (experiment_ids : List String) (aa_mz_indices : List ℤ) : List (List (List ℚ)) :=
  get_intensities_data_structure (combat data (combat_batches n colnames))
    colnames experiment_ids aa_mz_indices

/-- `get_amino_acids_indices_in_data(ions_mzs, ions_names, mz_axis)` from
`src/exploratory_analysis.py`.  The static reference list `amino_acids`
(pairs of a name and a nominal mz, from the absent `src.constants`) is a
parameter.  Amino acids absent from `ions_names` are skipped (the source
prints a console warning); for a present name the peak locator is called
and an uncaught `ValueError` (the `.error` branch) aborts the whole
computation. -/
def get_amino_acids_indices_in_data (allowed_ppm_error : ℚ)
    (amino_acids : List (String × ℚ)) (ions_mzs : List ℚ)
    (ions_names : List String) (mz_axis : List ℚ) :
    Except (ℚ × ℚ) (List ℤ × List String) :=
  match amino_acids with
  | [] => .ok ([], [])
  | (name, _) :: rest =>
    if name ∈ ions_names then
      match find_closest_ion_mz_index allowed_ppm_error mz_axis
          (ions_mzs.getD (ions_names.indexOf name) 0) with
      | .error e => .error e
      | .ok idx =>
        match get_amino_acids_indices_in_data allowed_ppm_error rest ions_mzs
            ions_names mz_axis with
        | .error e => .error e
        | .ok (idxs, names) => .ok (idx :: idxs, name :: names)
    else
      get_amino_acids_indices_in_data allowed_ppm_error rest ions_mzs ions_names mz_axis

/-! ### The autoencoder of `src/torch/ae.py` -/

/-- An `nn.Linear` layer: a weight matrix (one row per output feature) and
a bias vector. -/
structure Layer where
  weight : List (List ℚ)
  bias : List ℚ

/-- Application of an `nn.Linear` layer: each output is the dot product of
a weight row with the input plus the bias entry. -/
def Layer.apply (layer : Layer) (x : List ℚ) : List ℚ :=
  (layer.weight.zip layer.bias).map fun wb => (List.zipWith (fun a b => a * b) wb.1 x).sum + wb.2

/-- `nn.LeakyReLU()` with the default negative slope `0.01`. -/
def leakyReLU (x : ℚ) : ℚ :=
  if 0 ≤ x then x else x / 100

/-- `nn.CELU()` with the default `α = 1`: `x` for `x ≥ 0` and `exp(x) - 1`
otherwise.  The transcendental exponential of the float implementation is
abstracted as the function parameter `exp`. -/
def celu (exp : ℚ → ℚ) (x : ℚ) : ℚ :=
  if 0 ≤ x then x else exp x - 1

/-- The `AE` network of `src/torch/ae.py`: two encoder layers `e1`, `e2`
and two decoder layers `d1`, `d2`. -/
structure AE where
  e1 : Layer
  e2 : Layer
  d1 : Layer
  d2 : Layer

/-- `AE.encode`: `e1`, LeakyReLU, `e2`, CELU. -/
def AE.encode (exp : ℚ → ℚ) (m : AE) (features : List ℚ) : List ℚ :=
  ((m.e2.apply ((m.e1.apply features).map leakyReLU)).map (celu exp))

/-- `AE.decode`: `d1`, LeakyReLU, `d2`, CELU. -/
def AE.decode (exp : ℚ → ℚ) (m : AE) (encoded : List ℚ) : List ℚ :=
  ((m.d2.apply ((m.d1.apply encoded).map leakyReLU)).map (celu exp))

/-- `AE.forward`: the duplicated pass `e1`, LeakyReLU, `e2`, CELU, `d1`,
LeakyReLU, `d2`, CELU written out in full, as in the source. -/
def AE.forward (exp : ℚ → ℚ) (m : AE) (features : List ℚ) : List ℚ :=
  ((m.d2.apply
      ((m.d1.apply
          ((m.e2.apply ((m.e1.apply features).map leakyReLU)).map (celu exp))).map
        leakyReLU)).map (celu exp))

/-! ### Helper lemmas -/

theorem pyGet_natCast {α : Type} (l : List α) (d : α) (n : ℕ) :
    pyGet l d (n : ℤ) = l.getD n d := by
  simp [pyGet]

theorem pyGet_neg_one {α : Type} (l : List α) (d : α) :
    pyGet l d (-1) = l.getD (l.length - 1) d := by
  simp [pyGet]

theorem pyGet_coe_sub_one {α : Type} (l : List α) (d : α) (p : ℕ) (hp : 1 ≤ p) :
    pyGet l d ((p : ℤ) - 1) = l.getD (p - 1) d := by
  obtain ⟨q, rfl⟩ := Nat.exists_eq_add_of_le hp
  have h1 : ((1 + q : ℕ) : ℤ) - 1 = (q : ℕ) := by push_cast; ring
  rw [h1, pyGet_natCast]
  congr 1
  omega

/-- The scan index never decreases. -/
theorem scanFrom_le (mz_axis : List ℚ) (ion_mz : ℚ) (i : ℕ) :
    i ≤ scanFrom mz_axis ion_mz i := by
  induction i using scanFrom.induct mz_axis ion_mz with
  | case1 i h ih =>
    rw [scanFrom, if_pos h]
    omega
  | case2 i h =>
    rw [scanFrom, if_neg h]

/-- The scan index stays below the axis length. -/
theorem scanFrom_lt_length (mz_axis : List ℚ) (ion_mz : ℚ) (i : ℕ)
    (hi : i < mz_axis.length) :
    scanFrom mz_axis ion_mz i < mz_axis.length := by
  induction i using scanFrom.induct mz_axis ion_mz with
  | case1 i h ih =>
    rw [scanFrom, if_pos h]
    exact ih (by omega)
  | case2 i h =>
    rw [scanFrom, if_neg h]
    exact hi

/-- Every axis entry strictly before the final scan position is below the
target. -/
theorem scanFrom_prev_lt (mz_axis : List ℚ) (ion_mz : ℚ) (i : ℕ) :
    ∀ j, i ≤ j → j < scanFrom mz_axis ion_mz i → mz_axis.getD j 0 < ion_mz := by
  induction i using scanFrom.induct mz_axis ion_mz with
  | case1 i h ih =>
    intro j hij hj
    rw [scanFrom, if_pos h] at hj
    rcases Nat.eq_or_lt_of_le hij with rfl | hlt
    · exact h.1
    · exact ih j hlt hj
  | case2 i h =>
    intro j hij hj
    rw [scanFrom, if_neg h] at hj
    omega

/-- At the final scan position the loop guard fails: either the axis value
there is not below the target, or the position is the last one. -/
theorem scanFrom_stop (mz_axis : List ℚ) (ion_mz : ℚ) (i : ℕ) :
    ¬ (mz_axis.getD (scanFrom mz_axis ion_mz i) 0 < ion_mz ∧
       scanFrom mz_axis ion_mz i + 1 < mz_axis.length) := by
  induction i using scanFrom.induct mz_axis ion_mz with
  | case1 i h ih =>
    rw [scanFrom, if_pos h]
    exact ih
  | case2 i h =>
    rw [scanFrom, if_neg h]
    exact h

/-- A non-decreasing sorted list is monotone under `getD` access. -/
theorem sorted_getD_le (axis : List ℚ) (hs : axis.Sorted (· ≤ ·)) (i j : ℕ)
    (hij : i ≤ j) (hj : j < axis.length) :
    axis.getD i 0 ≤ axis.getD j 0 := by
  rw [List.getD_eq_getElem axis 0 (lt_of_le_of_lt hij hj), List.getD_eq_getElem axis 0 hj]
  rcases Nat.eq_or_lt_of_le hij with rfl | hlt
  · exact le_refl _
  · simpa [List.get_eq_getElem] using
      hs.rel_get_of_lt (a := ⟨i, lt_of_le_of_lt hij hj⟩) (b := ⟨j, hj⟩) hlt

/-- `ppm_error` against a fixed positive target is monotone in the
absolute deviation. -/
theorem ppm_error_mono (a b t : ℚ) (ht : 0 < t) (h : |a - t| ≤ |b - t|) :
    ppm_error a t ≤ ppm_error b t := by
  unfold ppm_error
  gcongr

/-- The previous-peak ppm is `ppm_error` at the Python index
`closest_index - 1`. -/
theorem previous_peak_ppm_eq (mz_axis : List ℚ) (ion_mz : ℚ) :
    previous_peak_ppm mz_axis ion_mz =
      ppm_error (pyGet mz_axis 0 ((scanFrom mz_axis ion_mz 0 : ℤ) - 1)) ion_mz := rfl

/-- The next-peak ppm is `ppm_error` at the final scan position. -/
theorem next_peak_ppm_eq (mz_axis : List ℚ) (ion_mz : ℚ) :
    next_peak_ppm mz_axis ion_mz =
      ppm_error (mz_axis.getD (scanFrom mz_axis ion_mz 0) 0) ion_mz := by
  rw [next_peak_ppm, ppm_error, pyGet_natCast]

/-- On a non-decreasing axis, the smaller of the two neighbor ppm errors
computed by the peak locator is a lower bound for the ppm error of every
axis entry. -/
theorem neighbor_min_le_all (axis : List ℚ) (t : ℚ) (ht : 0 < t)
    (hsorted : axis.Sorted (· ≤ ·)) (hne : axis ≠ []) :
    ∀ k, k < axis.length →
      min (previous_peak_ppm axis t) (next_peak_ppm axis t) ≤
        ppm_error (axis.getD k 0) t := by
  intro k hk
  have hplen : scanFrom axis t 0 < axis.length :=
    scanFrom_lt_length axis t 0 (List.length_pos.mpr hne)
  rcases lt_trichotomy k (scanFrom axis t 0) with hkp | hkp | hkp
  · -- the entry is strictly before the scan position, hence below target
    have h1p : 1 ≤ scanFrom axis t 0 := by omega
    refine le_trans (min_le_left _ _) ?_
    rw [previous_peak_ppm_eq, pyGet_coe_sub_one axis 0 _ h1p]
    apply ppm_error_mono _ _ _ ht
    have hkle : axis.getD k 0 ≤ axis.getD (scanFrom axis t 0 - 1) 0 :=
      sorted_getD_le axis hsorted _ _ (by omega) (by omega)
    have hlt : axis.getD (scanFrom axis t 0 - 1) 0 < t :=
      scanFrom_prev_lt axis t 0 _ (Nat.zero_le _) (by omega)
    rw [abs_of_nonpos (by linarith), abs_of_nonpos (by linarith)]
    linarith
  · -- the entry is the scan position itself
    rw [hkp, ← next_peak_ppm_eq]
    exact min_le_right _ _
  · -- the entry is after the scan position, hence the axis value at the
    -- scan position is at least the target
    have hge : t ≤ axis.getD (scanFrom axis t 0) 0 := by
      by_contra hlt
      exact scanFrom_stop axis t 0 ⟨by linarith, by omega⟩
    refine le_trans (min_le_right _ _) ?_
    rw [next_peak_ppm_eq]
    apply ppm_error_mono _ _ _ ht
    have hkge : axis.getD (scanFrom axis t 0) 0 ≤ axis.getD k 0 :=
      sorted_getD_le axis hsorted _ _ (by omega) hk
    rw [abs_of_nonneg (by linarith), abs_of_nonneg (by linarith)]
    linarith

/-- C1: for a sorted, monotonically increasing mz axis and a positive
target within the configured ppm tolerance of some axis entry, the peak
locator scans forward to the first axis position not less than the target
and returns, among the point immediately before that position (Python
index, wrapping at `0`) and the point at it, the index whose relative ppm
error is minimal. -/
theorem find_closest_returns_min_neighbor_ppm (tol t : ℚ) (axis : List ℚ)
    (hpos : 0 < t) (hsorted : axis.Sorted (· ≤ ·)) (hne : axis ≠ [])
    (htol : ∃ k, k < axis.length ∧ ppm_error (axis.getD k 0) t ≤ tol) :
    (∀ j, j < scanFrom axis t 0 → axis.getD j 0 < t) ∧
    (∀ j, j < axis.length → t ≤ axis.getD j 0 → scanFrom axis t 0 ≤ j) ∧
    ∃ i : ℤ, find_closest_ion_mz_index tol axis t = .ok i ∧
      (i = (scanFrom axis t 0 : ℤ) - 1 ∨ i = (scanFrom axis t 0 : ℤ)) ∧
      ppm_error (pyGet axis 0 i) t =
        min (previous_peak_ppm axis t) (next_peak_ppm axis t) := by
  obtain ⟨k, hk, hktol⟩ := htol
  have hmintol : min (previous_peak_ppm axis t) (next_peak_ppm axis t) ≤ tol :=
    le_trans (neighbor_min_le_all axis t hpos hsorted hne k hk) hktol
  refine ⟨fun j hj => scanFrom_prev_lt axis t 0 j (Nat.zero_le j) hj, ?_, ?_⟩
  · intro j hjlen hge
    by_contra hcon
    exact absurd hge
      (not_le.mpr (scanFrom_prev_lt axis t 0 j (Nat.zero_le j) (by omega)))
  · unfold find_closest_ion_mz_index
    split_ifs with h1 h2
    · exact ⟨_, rfl, Or.inl rfl,
        by rw [← previous_peak_ppm_eq, min_eq_left h1.1]⟩
    · refine ⟨_, rfl, Or.inr rfl, ?_⟩
      have hnp : ppm_error (pyGet axis 0 (scanFrom axis t 0 : ℤ)) t =
          next_peak_ppm axis t := rfl
      have hlt : next_peak_ppm axis t < previous_peak_ppm axis t := by
        push_neg at h1
        rcases lt_or_le (next_peak_ppm axis t) (previous_peak_ppm axis t) with h | h
        · exact h
        · exfalso
          rw [min_eq_left h] at hmintol
          exact absurd (h1 h) (not_lt.mpr hmintol)
      rw [hnp, min_eq_right (le_of_lt hlt)]
    · exfalso
      push_neg at h1 h2
      rcases le_total (previous_peak_ppm axis t) (next_peak_ppm axis t) with h | h
      · rw [min_eq_left h] at hmintol
        exact absurd (h1 h) (not_lt.mpr hmintol)
      · rcases lt_or_eq_of_le h with h' | h'
        · rw [min_eq_right h] at hmintol
          exact absurd (h2 h') (not_lt.mpr hmintol)
        · rw [min_eq_left (le_of_eq h'.symm)] at hmintol
          exact absurd (h1 (le_of_eq h'.symm)) (not_lt.mpr hmintol)

/-- Witness for C1 on the spec's example axis. -/
theorem find_closest_returns_min_neighbor_ppm_witness :
    ∃ i : ℤ, find_closest_ion_mz_index 200 [100, 201/2, 506/5] (2513/25) = .ok i ∧
      (i = (scanFrom [100, 201/2, 506/5] (2513/25) 0 : ℤ) - 1 ∨
        i = (scanFrom [100, 201/2, 506/5] (2513/25) 0 : ℤ)) ∧
      ppm_error (pyGet [100, 201/2, 506/5] 0 i) (2513/25) =
        min (previous_peak_ppm [100, 201/2, 506/5] (2513/25))
          (next_peak_ppm [100, 201/2, 506/5] (2513/25)) :=
  (find_closest_returns_min_neighbor_ppm 200 (2513/25) [100, 201/2, 506/5]
    (by norm_num) (by norm_num [List.sorted_cons]) (by simp)
    ⟨1, by norm_num, by norm_num [ppm_error, abs_div]⟩).2.2

/-- C2: when no axis entry is within the configured ppm tolerance of the
target, the peak locator raises (returns the error branch) instead of
returning an index. -/
theorem find_closest_fails_out_of_tolerance (tol t : ℚ) (axis : List ℚ)
    (_hsorted : axis.Sorted (· ≤ ·)) (hne : axis ≠ [])
    (hout : ∀ k, k < axis.length → tol < ppm_error (axis.getD k 0) t) :
    ∃ e, find_closest_ion_mz_index tol axis t = .error e := by
  have hplen : scanFrom axis t 0 < axis.length :=
    scanFrom_lt_length axis t 0 (List.length_pos.mpr hne)
  have hprev : tol < previous_peak_ppm axis t := by
    rcases Nat.eq_zero_or_pos (scanFrom axis t 0) with h0 | h1
    · rw [previous_peak_ppm_eq, h0]
      have hι : ((0 : ℕ) : ℤ) - 1 = -1 := by norm_num
      rw [hι, pyGet_neg_one]
      exact hout _ (by omega)
    · rw [previous_peak_ppm_eq, pyGet_coe_sub_one axis 0 _ h1]
      exact hout _ (by omega)
  have hnext : tol < next_peak_ppm axis t := by
    rw [next_peak_ppm_eq]
    exact hout _ hplen
  unfold find_closest_ion_mz_index
  split_ifs with h1 h2
  · exact absurd h1.2 (not_le.mpr hprev)
  · exact absurd h2.2 (not_le.mpr hnext)
  · exact ⟨_, rfl⟩

/-- Witness for C2: a one-point axis a factor of two away from the target
is out of any tolerance below `10^6` ppm. -/
theorem find_closest_fails_out_of_tolerance_witness :
    ∃ e, find_closest_ion_mz_index 1 [100] 50 = .error e :=
  find_closest_fails_out_of_tolerance 1 50 [100] (by simp) (by simp)
    (by
      intro k hk
      have hk0 : k = 0 := by simpa using hk
      subst hk0
      norm_num [ppm_error])

/-- The scan of the spec's example stops at position `2`, the first axis
point not below the target. -/
theorem scanFrom_spec_example : scanFrom [100, 201/2, 506/5] (2513/25) 0 = 2 := by
  rw [scanFrom]
  norm_num
  rw [scanFrom]
  norm_num
  rw [scanFrom]
  norm_num

/-- C7: on the axis `[100.0, 100.5, 101.2]` with target `100.52` and a
tolerance at least the ppm error of `100.5` against `100.52`, the locator
returns index `1`. -/
theorem find_closest_spec_example (tol : ℚ)
    (h : ppm_error (201/2) (2513/25) ≤ tol) :
    find_closest_ion_mz_index tol [100, 201/2, 506/5] (2513/25) = .ok 1 := by
  have hprev : previous_peak_ppm [100, 201/2, 506/5] (2513/25) =
      ppm_error (201/2) (2513/25) := by
    rw [previous_peak_ppm_eq, scanFrom_spec_example,
      pyGet_coe_sub_one _ _ 2 (by norm_num)]
    norm_num
  have hnext : next_peak_ppm [100, 201/2, 506/5] (2513/25) =
      ppm_error (506/5) (2513/25) := by
    rw [next_peak_ppm_eq, scanFrom_spec_example]
    norm_num
  unfold find_closest_ion_mz_index
  rw [hprev, hnext, scanFrom_spec_example]
  split_ifs with h1 h2
  · norm_num
  · exact absurd ⟨by norm_num [ppm_error, abs_div], h⟩ h1
  · exact absurd ⟨by norm_num [ppm_error, abs_div], h⟩ h1

/-- Witness for C7 at the concrete tolerance `200` ppm. -/
theorem find_closest_spec_example_witness :
    find_closest_ion_mz_index 200 [100, 201/2, 506/5] (2513/25) = .ok 1 :=
  find_closest_spec_example 200 (by norm_num [ppm_error, abs_div])

/-- C4: for an axis with at least two entries and a target not above the
first entry, the scan stops at position `0` and the previous-peak access
`mz_axis[-1]` wraps to the last axis element; there are such inputs on
which the locator returns the index `-1`. -/
theorem scan_at_zero_wraps :
    (∀ (axis : List ℚ) (t : ℚ), 2 ≤ axis.length → t ≤ axis.getD 0 0 →
        scanFrom axis t 0 = 0 ∧
        pyGet axis 0 ((scanFrom axis t 0 : ℤ) - 1) = axis.getD (axis.length - 1) 0) ∧
    ∃ tol t : ℚ, ∃ axis : List ℚ, 2 ≤ axis.length ∧ t ≤ axis.getD 0 0 ∧
        find_closest_ion_mz_index tol axis t = .ok (-1) := by
  constructor
  · intro axis t h2 hle
    have h0 : scanFrom axis t 0 = 0 := by
      rw [scanFrom, if_neg]
      intro hcon
      exact absurd hcon.1 (not_lt.mpr hle)
    refine ⟨h0, ?_⟩
    rw [h0]
    have hι : ((0 : ℕ) : ℤ) - 1 = -1 := by norm_num
    rw [hι, pyGet_neg_one]
  · refine ⟨10 ^ 6, 50, [100, 50], by norm_num, by norm_num, ?_⟩
    have hscan : scanFrom [100, 50] (50 : ℚ) 0 = 0 := by
      rw [scanFrom]
      norm_num
    have hprev : previous_peak_ppm [100, 50] 50 = 0 := by
      rw [previous_peak_ppm_eq, hscan]
      norm_num [pyGet_neg_one, ppm_error]
    have hnext : next_peak_ppm [100, 50] 50 = 10 ^ 6 := by
      rw [next_peak_ppm_eq, hscan]
      norm_num [ppm_error]
    unfold find_closest_ion_mz_index
    rw [hprev, hnext, hscan]
    rw [if_pos (by norm_num)]
    norm_num

/-- Witness for C4 at a concrete two-entry axis. -/
theorem scan_at_zero_wraps_witness :
    scanFrom [100, 50] (50 : ℚ) 0 = 0 ∧
    pyGet [100, 50] 0 ((scanFrom [100, 50] (50 : ℚ) 0 : ℤ) - 1) =
      List.getD ([100, 50] : List ℚ) ((([100, 50] : List ℚ)).length - 1) 0 :=
  scan_at_zero_wraps.1 [100, 50] 50 (by norm_num) (by norm_num)

/-- C10: the scan loop makes progress and stays below the axis length
(hence terminates), and any index returned by the locator lies in the
range `[-1, len(mz_axis) - 1]`. -/
theorem find_closest_terminates_and_in_range (tol t : ℚ) (axis : List ℚ)
    (hne : axis ≠ []) :
    (∀ i : ℕ, i ≤ scanFrom axis t i) ∧
    scanFrom axis t 0 < axis.length ∧
    ∀ i : ℤ, find_closest_ion_mz_index tol axis t = .ok i →
      -1 ≤ i ∧ i ≤ (axis.length : ℤ) - 1 := by
  have hplen : scanFrom axis t 0 < axis.length :=
    scanFrom_lt_length axis t 0 (List.length_pos.mpr hne)
  refine ⟨fun i => scanFrom_le axis t i, hplen, ?_⟩
  intro i hi
  unfold find_closest_ion_mz_index at hi
  split_ifs at hi
  · simp only [Except.ok.injEq] at hi
    omega
  · simp only [Except.ok.injEq] at hi
    omega

/-- Witness for C10 on a concrete one-point axis. -/
theorem find_closest_terminates_and_in_range_witness :
    scanFrom [100] (50 : ℚ) 0 < ([100] : List ℚ).length :=
  (find_closest_terminates_and_in_range 1 50 [100] (by simp)).2.1

/-- `getD` through a map over `List.range`. -/
theorem getD_range_map {α : Type} (f : ℕ → α) (d : α) (n i : ℕ) (h : i < n) :
    ((List.range n).map f).getD i d = f i := by
  rw [List.getD_eq_getElem _ _ (by simpa using h)]
  simp

/-- C3: simple TIC normalization round-trips exactly — each normalized
replicate value, multiplied by the experiment's total intensity and
divided by the scaling factor, recovers the raw intensity. -/
theorem tic_normalization_round_trip (sf : ℚ) (data : List (List ℚ))
    (colnames experiment_ids : List String)
    (aa_intensities : List (List (List ℚ))) (i j r : ℕ)
    (hi : i < aa_intensities.length) (hj : j < experiment_ids.length)
    (hsf : sf ≠ 0)
    (htic : experiment_tic data colnames (experiment_ids.getD j "") ≠ 0) :
    (((get_tic_normalized_amino_acid_values sf data colnames experiment_ids
          aa_intensities).getD i []).getD j []).getD r 0 *
        experiment_tic data colnames (experiment_ids.getD j "") / sf =
      ((aa_intensities.getD i []).getD j []).getD r 0 := by
  rw [get_tic_normalized_amino_acid_values, getD_range_map _ _ _ _ hi,
    getD_range_map _ _ _ _ hj]
  generalize hT : experiment_tic data colnames (experiment_ids.getD j "") = T at htic ⊢
  generalize hL : (aa_intensities.getD i []).getD j [] = l
  rcases Nat.lt_or_ge r l.length with hr | hr
  · rw [List.getD_eq_getElem _ _ (by simpa using hr), List.getElem_map,
      List.getD_eq_getElem _ _ hr]
    field_simp
  · rw [List.getD_eq_default _ _ (by simpa using hr),
      List.getD_eq_default _ _ hr]
    simp

/-- Witness for C3 on a concrete 2×2 data matrix with a single analyte. -/
theorem tic_normalization_round_trip_witness :
    (((get_tic_normalized_amino_acid_values 2 [[1, 2], [3, 4]] ["a", "b"] ["a"]
          [[[5]]]).getD 0 []).getD 0 []).getD 0 0 *
        experiment_tic [[1, 2], [3, 4]] ["a", "b"] ((["a"] : List String).getD 0 "") / 2 =
      ((([[[5]]] : List (List (List ℚ))).getD 0 []).getD 0 []).getD 0 0 :=
  tic_normalization_round_trip 2 [[1, 2], [3, 4]] ["a", "b"] ["a"] [[[5]]] 0 0 0
    (by norm_num) (by norm_num) (by norm_num)
    (by
      have hjx : j_experiment_indices ["a", "b"] "a" = [0] := by decide
      norm_num [experiment_tic, hjx])

/-- The flattened triple groups have length three per group. -/
theorem flatten_triples_length (m : ℕ) :
    (((List.range m).map fun i => [i, i, i]).flatten).length = 3 * m := by
  induction m with
  | zero => simp
  | succ m ih =>
    rw [List.range_succ, List.map_append, List.flatten_append]
    simp [ih]
    omega

/-- Entry `s` of the flattened triple groups carries the label `s / 3`. -/
theorem flatten_triples_getD (m : ℕ) :
    ∀ s, s < 3 * m →
      (((List.range m).map fun i => [i, i, i]).flatten).getD s 0 = s / 3 := by
  induction m with
  | zero => omega
  | succ m ih =>
    intro s hs
    rw [List.range_succ, List.map_append, List.flatten_append]
    rcases Nat.lt_or_ge s (3 * m) with h | h
    · rw [List.getD_append _ _ _ _ (by rw [flatten_triples_length]; exact h)]
      exact ih s h
    · rw [List.getD_append_right _ _ _ _ (by rw [flatten_triples_length]; exact h),
        flatten_triples_length]
      have hd : s - 3 * m = 0 ∨ s - 3 * m = 1 ∨ s - 3 * m = 2 := by omega
      have hs3 : s / 3 = m := by omega
      rcases hd with hd | hd | hd <;> simp [hd, hs3]

/-- C6 (amended): the batch vector of
`get_combat_normalized_amino_acid_values` consists of
`len(colnames) // n` consecutive groups of three equal labels — its length
is `3 * (len(colnames) // n)` and entry `s` is labelled `s / 3` — so it
assigns exactly one label per sample exactly in the case that the
replicate count is `3` and divides the number of samples. -/
theorem combat_batches_structure (n : ℕ) (colnames : List String) (hn : 0 < n) :
    (combat_batches n colnames).length = 3 * (colnames.length / n) ∧
    (∀ s, s < (combat_batches n colnames).length →
      (combat_batches n colnames).getD s 0 = s / 3) ∧
    (n = 3 → n ∣ colnames.length →
      (combat_batches n colnames).length = colnames.length) := by
  refine ⟨flatten_triples_length _, ?_, ?_⟩
  · intro s hs
    rw [combat_batches] at hs ⊢
    rw [flatten_triples_length] at hs
    exact flatten_triples_getD _ s hs
  · intro h3 hdvd
    subst h3
    rw [combat_batches, flatten_triples_length]
    exact Nat.mul_div_cancel' hdvd

/-- Counterexample to C6 as stated: with replicate count `3` and four
samples, the batch vector has three entries, not one per sample. -/
theorem combat_batches_counterexample :
    (combat_batches 3 ["a", "b", "c", "d"]).length ≠
      (["a", "b", "c", "d"] : List String).length := by
  decide

/-- Witness for the amended C6 at replicate count `3` and three samples. -/
theorem combat_batches_structure_witness :
    (combat_batches 3 ["a", "b", "c"]).length =
      3 * ((["a", "b", "c"] : List String).length / 3) :=
  (combat_batches_structure 3 ["a", "b", "c"] (by norm_num)).1

/-- Unfolding of `get_amino_acids_indices_in_data` on a non-empty
reference list. -/
theorem get_amino_acids_cons (tol : ℚ) (nm : String) (m : ℚ)
    (rest : List (String × ℚ)) (ions_mzs : List ℚ) (ions_names : List String)
    (mz_axis : List ℚ) :
    get_amino_acids_indices_in_data tol ((nm, m) :: rest) ions_mzs ions_names mz_axis =
      if nm ∈ ions_names then
        match find_closest_ion_mz_index tol mz_axis
            (ions_mzs.getD (ions_names.indexOf nm) 0) with
        | .error e => .error e
        | .ok idx =>
          match get_amino_acids_indices_in_data tol rest ions_mzs ions_names mz_axis with
          | .error e => .error e
          | .ok (idxs, names) => .ok (idx :: idxs, nm :: names)
      else
        get_amino_acids_indices_in_data tol rest ions_mzs ions_names mz_axis := rfl

/-- C5: the lookup error carries the pair of candidate ppm deviations, and
the caller `get_amino_acids_indices_in_data` does not catch it: one
out-of-tolerance analyte present in the annotation aborts the whole
computation with an error. -/
theorem lookup_failure_aborts (tol : ℚ) (mz_axis ions_mzs : List ℚ)
    (ions_names : List String) (amino_acids : List (String × ℚ)) :
    (∀ t e, find_closest_ion_mz_index tol mz_axis t = .error e →
        e = (previous_peak_ppm mz_axis t, next_peak_ppm mz_axis t)) ∧
    ∀ p ∈ amino_acids, p.1 ∈ ions_names →
      (∃ e, find_closest_ion_mz_index tol mz_axis
          (ions_mzs.getD (ions_names.indexOf p.1) 0) = .error e) →
      ∃ e', get_amino_acids_indices_in_data tol amino_acids ions_mzs ions_names
          mz_axis = .error e' := by
  constructor
  · intro t e he
    unfold find_closest_ion_mz_index at he
    split_ifs at he
    simp only [Except.error.injEq] at he
    exact he.symm
  · intro p hp hmem hfail
    induction amino_acids with
    | nil => simp at hp
    | cons head rest ih =>
      obtain ⟨nm, m⟩ := head
      rcases List.mem_cons.mp hp with heq | hrest
      · subst heq
        obtain ⟨e, he⟩ := hfail
        refine ⟨e, ?_⟩
        rw [get_amino_acids_cons, if_pos hmem, he]
      · by_cases hh : nm ∈ ions_names
        · cases hfind : find_closest_ion_mz_index tol mz_axis
              (ions_mzs.getD (ions_names.indexOf nm) 0) with
          | error e =>
            exact ⟨e, by rw [get_amino_acids_cons, if_pos hh, hfind]⟩
          | ok idx =>
            obtain ⟨e', he'⟩ := ih hrest
            exact ⟨e', by rw [get_amino_acids_cons, if_pos hh, hfind, he']⟩
        · obtain ⟨e', he'⟩ := ih hrest
          exact ⟨e', by rw [get_amino_acids_cons, if_neg hh]; exact he'⟩

/-- Witness for C5: a single analyte a factor of two off the axis aborts
the computation. -/
theorem lookup_failure_aborts_witness :
    ∃ e', get_amino_acids_indices_in_data 1 [("Ala", 100)] [50] ["Ala"] [100] =
      .error e' :=
  (lookup_failure_aborts 1 [100] [50] ["Ala"] [("Ala", 100)]).2 ("Ala", 100)
    (by simp) (by simp)
    (by
      have harg : ([50] : List ℚ).getD ((["Ala"] : List String).indexOf "Ala") 0 = 50 := rfl
      rw [harg]
      have hscan : scanFrom [100] (50 : ℚ) 0 = 0 := by
        rw [scanFrom]
        norm_num
      have hprev : previous_peak_ppm [100] 50 = 10 ^ 6 := by
        rw [previous_peak_ppm_eq, hscan]
        norm_num [pyGet_neg_one, ppm_error]
      have hnext : next_peak_ppm [100] 50 = 10 ^ 6 := by
        rw [next_peak_ppm_eq, hscan]
        norm_num [ppm_error]
      refine ⟨(10 ^ 6, 10 ^ 6), ?_⟩
      unfold find_closest_ion_mz_index
      rw [hprev, hnext]
      norm_num)

/-- C8: reference names absent from the ion annotation are only skipped —
if every present name's lookup succeeds, the call returns normally, the
returned name list is exactly the present reference names in reference
order, and the index list has the same length. -/
theorem absent_names_skipped (tol : ℚ) (mz_axis ions_mzs : List ℚ)
    (ions_names : List String) (amino_acids : List (String × ℚ))
    (hfound : ∀ p ∈ amino_acids, p.1 ∈ ions_names →
      ∃ v, find_closest_ion_mz_index tol mz_axis
          (ions_mzs.getD (ions_names.indexOf p.1) 0) = .ok v) :
    ∃ idxs : List ℤ,
      get_amino_acids_indices_in_data tol amino_acids ions_mzs ions_names mz_axis =
        .ok (idxs, (amino_acids.filter fun p => decide (p.1 ∈ ions_names)).map Prod.fst) ∧
      idxs.length =
        ((amino_acids.filter fun p => decide (p.1 ∈ ions_names)).map Prod.fst).length := by
  induction amino_acids with
  | nil => exact ⟨[], rfl, rfl⟩
  | cons head rest ih =>
    obtain ⟨nm, m⟩ := head
    obtain ⟨idxs, hok, hlen⟩ :=
      ih fun p hp hmem => hfound p (List.mem_cons_of_mem _ hp) hmem
    by_cases hh : nm ∈ ions_names
    · obtain ⟨v, hv⟩ := hfound (nm, m) (List.mem_cons_self _ _) hh
      refine ⟨v :: idxs, ?_, ?_⟩
      · rw [get_amino_acids_cons, if_pos hh, hv, hok]
        simp [List.filter_cons, hh]
      · simp [List.filter_cons, hh]
        simpa using hlen
    · refine ⟨idxs, ?_, ?_⟩
      · rw [get_amino_acids_cons, if_neg hh, hok]
        simp [List.filter_cons, hh]
      · simpa [List.filter_cons, hh] using hlen

/-- Witness for C8: one present and one absent reference name. -/
theorem absent_names_skipped_witness :
    ∃ idxs : List ℤ,
      get_amino_acids_indices_in_data 1 [("Ala", 1), ("Gly", 1)] [100] ["Ala"] [100] =
        .ok (idxs, ([("Ala", 1), ("Gly", 1)] : List (String × ℚ)).filter
          (fun p => decide (p.1 ∈ (["Ala"] : List String))) |>.map Prod.fst) ∧
      idxs.length =
        ((([("Ala", 1), ("Gly", 1)] : List (String × ℚ)).filter
          (fun p => decide (p.1 ∈ (["Ala"] : List String)))).map Prod.fst).length :=
  absent_names_skipped 1 [100] [100] ["Ala"] [("Ala", 1), ("Gly", 1)]
    (by
      intro p hp hmem
      rcases List.mem_cons.mp hp with heq | hp'
      · subst heq
        have harg : ([100] : List ℚ).getD ((["Ala"] : List String).indexOf "Ala") 0 = 100 := rfl
        rw [harg]
        have hscan : scanFrom [100] (100 : ℚ) 0 = 0 := by
          rw [scanFrom]
          norm_num
        have hprev : previous_peak_ppm [100] 100 = 0 := by
          rw [previous_peak_ppm_eq, hscan]
          norm_num [pyGet_neg_one, ppm_error]
        have hnext : next_peak_ppm [100] 100 = 0 := by
          rw [next_peak_ppm_eq, hscan]
          norm_num [ppm_error]
        refine ⟨-1, ?_⟩
        unfold find_closest_ion_mz_index
        rw [hprev, hnext, hscan]
        norm_num
      · simp only [List.mem_singleton] at hp'
        subst hp'
        simp at hmem)

/-- C9: the duplicated forward pass of the autoencoder computes exactly
the composition of `encode` followed by `decode`, for every parameter
assignment, every input and every modelled exponential. -/
theorem forward_eq_decode_encode (exp : ℚ → ℚ) (m : AE) (x : List ℚ) :
    AE.forward exp m x = AE.decode exp m (AE.encode exp m x) := rfl

end Normalization
